import Mathlib

/-! DGConfigure: schema registry and validated accessors

A shallow embedding of `src/base/private/dgconfigure_p.cpp` (class `DGConfigure`).

* Heap objects are addressed by their allocation index: a `DGConfigure *` is an index into
  `Process.objects`, a `QGSettings *` an index into `Process.settings`; `nullptr` is `none`.
* The Qt string conversions and the `QGSettings` library are external to the repository and
  are taken as a parameter (`Platform`); the settings store they read and write is an explicit
  state `β`, and every library call an accessor makes is appended to a call log (`World.calls`).
* `qFatal` terminates the process: `Outcome.aborted`.
* `new QGSettings(id, path)` is taken to return an object for every id and path: what the
  library does with the path it is given is outside the repository. Every construction is
  recorded in `Process.settings`.
* `qCWarning` output is diagnostic only and is not part of the state.
* `std::function` values are `Option Callback`: `none` is the empty function object, and a
  non-empty target is identified by a tag; running a target is recorded as an `Invocation`.
-/

namespace Dtk.Core

/-- The Qt string type; values are sequences of Unicode characters. -/
abbrev QString := String

/-- The Qt byte array type, as the list of its bytes. -/
abbrev QByteArray := List Nat

/-- A non-empty `std::function<void(const QString &)>` target, identified by a tag. -/
abbrev Callback := Nat

/-- One run of a callback target with the key it was given. -/
abbrev Invocation := Callback × QString

/-- The external collaborators of `DGConfigure`: the Qt conversions between `QString` and
`QByteArray`, `QVariant` (type `ν`) and the operations of the `QGSettings` library over a
settings store of type `β`; a `QGSettings` object is named by its address. -/
structure Platform (β ν : Type) where
  /-- `QString::toUtf8()`. -/
  toUtf8 : QString → QByteArray
  /-- `QString(const QByteArray &)`. -/
  fromUtf8 : QByteArray → QString
  /-- `QVariant::toString()`. -/
  toString : ν → QString
  /-- `QVariant(const QString &)`. -/
  ofString : QString → ν
  /-- `QGSettings::isSchemaInstalled(id)`. -/
  isSchemaInstalled : β → QByteArray → Bool
  /-- `QGSettings::keys()`. -/
  keys : β → Nat → List QString
  /-- `QGSettings::get(key)`. -/
  get : β → Nat → QString → ν
  /-- `QGSettings::trySet(key, value)`: the answer and the store afterwards. -/
  trySet : β → Nat → QString → ν → Bool × β
  /-- `QGSettings::reset(key)`: the store afterwards. -/
  reset : β → Nat → QString → β

/-- A call into the `QGSettings` library. -/
inductive BackendCall where
  | isSchemaInstalled (schemaId : QByteArray)
  | keys (h : Nat)
  | get (h : Nat) (key : QString)
  | trySet (h : Nat) (key : QString) (value : QString)
  | reset (h : Nat) (key : QString)
  deriving DecidableEq, Repr

/-- The settings store together with the log of library calls made so far. -/
structure World (β : Type) where
  store : β
  calls : List BackendCall
  deriving DecidableEq, Repr

/-- The anonymous struct `m_schemaInfo` of `DGConfigure`. -/
structure SchemaInfo where
  m_schemaId : QByteArray
  m_schemaPath : QByteArray
  m_appName : QByteArray
  m_pSettings : Nat
  m_onValueChanged : Option Callback
  deriving DecidableEq, Repr

/-- An object of class `DGConfigure`. -/
structure DGConfigure where
  m_schemaInfo : SchemaInfo
  deriving DecidableEq, Repr

/-- What the program fixes of a `QGSettings` object: the id and path it was opened with and
the slots connected to its `changed` signal, each the constructor's lambda named by the
`this` it captured. -/
structure QGSettings where
  schemaId : QByteArray
  path : QByteArray
  changed : List Nat
  deriving DecidableEq, Repr

/-- The process-wide state: the heap of `DGConfigure` and `QGSettings` objects, the static
`s_schemaVec`, the function-local static `gs` of `instance` (`none` until initialised) and
the number of `std::atexit(destroy)` registrations. -/
structure Process where
  objects : List DGConfigure
  settings : List QGSettings
  s_schemaVec : List Nat
  gs : Option Nat
  atexitDestroy : Nat
  deriving DecidableEq, Repr

/-- The state at process start. -/
def Process.init : Process := ⟨[], [], [], none, 0⟩

/-- Result of a call that may end in `qFatal`. -/
inductive Outcome (β : Type) where
  | aborted
  | returned (ret : Option Nat) (s : Process) (w : World β)
  deriving DecidableEq, Repr

/-- `s_defaultSchemaId = "com.deepin.dtk"`. -/
def s_defaultSchemaId : QByteArray :=
  [99, 111, 109, 46, 100, 101, 101, 112, 105, 110, 46, 100, 116, 107]

/-- `s_defaultSchemaPath = "/com/deepin/dtk/"`. -/
def s_defaultSchemaPath : QByteArray :=
  [47, 99, 111, 109, 47, 100, 101, 101, 112, 105, 110, 47, 100, 116, 107, 47]

/-- `QString::isEmpty()`. -/
def isEmpty (s : QString) : Bool := s.data.isEmpty

/-- `QStringList::indexOf(key)` searching from position `i`: the first index, or `-1`. -/
def indexOfFrom (key : QString) : List QString → Nat → Int
  | [], _ => -1
  | k :: rest, i => if k = key then (i : Int) else indexOfFrom key rest (i + 1)

/-- `QStringList::indexOf(key)`. -/
def indexOf (l : List QString) (key : QString) : Int := indexOfFrom key l 0

section Accessors

variable {β ν : Type}

/-- `DGConfigure::isValidSchemaId` (static). -/
def isValidSchemaId (P : Platform β ν) (w : World β) (schemaId : QString) : Bool × World β :=
  let id := P.toUtf8 schemaId
  let w1 : World β := { w with calls := w.calls ++ [BackendCall.isSchemaInstalled id] }
  if !P.isSchemaInstalled w.store id then
    (false, w1)
  else
    (true, w1)

/-- `DGConfigure::isValidKey`; `&&` does not evaluate `keys()` when the id is not valid. -/
def isValidKey (P : Platform β ν) (w : World β) (self : DGConfigure) (key : QString) :
    Bool × World β :=
  let r := isValidSchemaId P w (P.fromUtf8 self.m_schemaInfo.m_schemaId)
  if r.1 then
    let ks := P.keys r.2.store self.m_schemaInfo.m_pSettings
    (decide (indexOf ks key ≠ -1),
      { r.2 with calls := r.2.calls ++ [BackendCall.keys self.m_schemaInfo.m_pSettings] })
  else
    (false, r.2)

/-- `DGConfigure::setValue`. -/
def setValue (P : Platform β ν) (w : World β) (self : DGConfigure) (key value : QString) :
    Bool × World β :=
  let r := isValidKey P w self key
  if r.1 then
    let t := P.trySet r.2.store self.m_schemaInfo.m_pSettings key (P.ofString value)
    (t.1, { store := t.2,
            calls := r.2.calls ++ [BackendCall.trySet self.m_schemaInfo.m_pSettings key value] })
  else
    (false, r.2)

/-- `DGConfigure::getValue`. -/
def getValue (P : Platform β ν) (w : World β) (self : DGConfigure) (key : QString) :
    QString × World β :=
  let r := isValidKey P w self key
  if r.1 then
    (P.toString (P.get r.2.store self.m_schemaInfo.m_pSettings key),
      { r.2 with calls := r.2.calls ++ [BackendCall.get self.m_schemaInfo.m_pSettings key] })
  else
    ("", r.2)

/-- `DGConfigure::allKeys`. -/
def allKeys (P : Platform β ν) (w : World β) (self : DGConfigure) : List QString × World β :=
  let r := isValidSchemaId P w (P.fromUtf8 self.m_schemaInfo.m_schemaId)
  if !r.1 then
    ([], r.2)
  else
    (P.keys r.2.store self.m_schemaInfo.m_pSettings,
      { r.2 with calls := r.2.calls ++ [BackendCall.keys self.m_schemaInfo.m_pSettings] })

/-- `DGConfigure::resetValue`. -/
def resetValue (P : Platform β ν) (w : World β) (self : DGConfigure) (key : QString) :
    World β :=
  let r := isValidKey P w self key
  if r.1 then
    r.2
  else
    { store := P.reset r.2.store self.m_schemaInfo.m_pSettings key,
      calls := r.2.calls ++ [BackendCall.reset self.m_schemaInfo.m_pSettings key] }

end Accessors

section Registry

variable {β ν : Type}

/-- `new DGConfigure(appName, schemaId, schemaPath)`: the constructor. It allocates the
`QGSettings` object for `(id, path)`, connects the forwarding lambda to its `changed` signal
and registers `destroy` with `std::atexit`. Returns the address of the new object. -/
def DGConfigure.new (P : Platform β ν) (appName schemaId schemaPath : QString)
    (s : Process) : Nat × Process :=
  let path := P.toUtf8 schemaPath ++ P.toUtf8 (appName ++ "/")
  let id := P.toUtf8 schemaId
  let this := s.objects.length
  let pSettings := s.settings.length
  (this,
    { s with
      objects := s.objects ++
        [⟨{ m_appName := P.toUtf8 appName
            m_schemaId := P.toUtf8 schemaId
            m_schemaPath := P.toUtf8 schemaPath
            m_pSettings := pSettings
            m_onValueChanged := none }⟩]
      settings := s.settings ++ [{ schemaId := id, path := path, changed := [this] }]
      atexitDestroy := s.atexitDestroy + 1 })

/-- `DGConfigure::instance`: the function-local static `gs` is initialised by the first call
and returned by every call. -/
def DGConfigure.instance (P : Platform β ν) (appName schemaId schemaPath : QString)
    (s : Process) : Nat × Process :=
  match s.gs with
  | some gs => (gs, s)
  | none =>
    let r := DGConfigure.new P appName schemaId schemaPath s
    (r.1, { r.2 with gs := some r.1 })

/-- The loop of `createNewSchema` over `s_schemaVec`: the first entry whose stored id, path and
application name equal the given byte arrays. -/
def findSchema (objects : List DGConfigure) (id path app : QByteArray) :
    List Nat → Option Nat
  | [] => none
  | schema :: rest =>
    match objects[schema]? with
    | some o =>
      if o.m_schemaInfo.m_schemaId = id ∧ o.m_schemaInfo.m_schemaPath = path ∧
          o.m_schemaInfo.m_appName = app then
        some schema
      else
        findSchema objects id path app rest
    | none => findSchema objects id path app rest

/-- `DGConfigure::createNewSchema`. -/
def createNewSchema (P : Platform β ν) (w : World β) (appName schemaId schemaPath : QString)
    (s : Process) : Outcome β :=
  if isEmpty schemaPath then
    Outcome.aborted
  else
    let v := isValidSchemaId P w schemaId
    if !v.1 then
      Outcome.returned none s v.2
    else
      match findSchema s.objects (P.toUtf8 schemaId) (P.toUtf8 schemaPath) (P.toUtf8 appName)
          s.s_schemaVec with
      | some schema => Outcome.returned (some schema) s v.2
      | none =>
        let r := DGConfigure.new P appName schemaId schemaPath s
        Outcome.returned (some r.1) { r.2 with s_schemaVec := r.2.s_schemaVec ++ [r.1] } v.2

/-- `DGConfigure::selectSchema`. -/
def selectSchema (P : Platform β ν) (w : World β) (schemaId schemaPath appName : QString)
    (s : Process) : Outcome β :=
  createNewSchema P w appName schemaId schemaPath s

/-- `DGConfigure::setOnValueChangedCallback` on the object at address `this`. -/
def setOnValueChangedCallback (this : Nat) (callback : Option Callback) (s : Process) :
    Process :=
  { s with
    objects := s.objects.modify
      (fun o => { o with m_schemaInfo := { o.m_schemaInfo with m_onValueChanged := callback } })
      this }

/-- The lambda the constructor connects to `QGSettings::changed`, run on the object it
captured: the callback invocations it makes. -/
def onChangedLambda (self : DGConfigure) (key : QString) : List Invocation :=
  match self.m_schemaInfo.m_onValueChanged with
  | some callback => [(callback, key)]
  | none => []

/-- Emission of `QGSettings::changed(key)` by the `QGSettings` object at `pSettings`: every
connected slot runs, in connection order. -/
def emitChanged (s : Process) (pSettings : Nat) (key : QString) : List Invocation :=
  match s.settings[pSettings]? with
  | some q =>
    q.changed.flatMap (fun this =>
      match s.objects[this]? with
      | some o => onChangedLambda o key
      | none => [])
  | none => []

end Registry

section Runs

variable {β ν : Type}

/-- The stored identity of an instance: `(m_schemaId, m_schemaPath, m_appName)`. -/
def identity (o : DGConfigure) : QByteArray × QByteArray × QByteArray :=
  (o.m_schemaInfo.m_schemaId, o.m_schemaInfo.m_schemaPath, o.m_schemaInfo.m_appName)

/-- The stored identity of the object at address `p`, if there is one. -/
def identityAt (objects : List DGConfigure) (p : Nat) :
    Option (QByteArray × QByteArray × QByteArray) :=
  (objects[p]?).map identity

/-- A call of the class interface, with the world it runs in where it consults the backend. -/
inductive Op (β : Type) where
  | selectSchema (w : World β) (schemaId schemaPath appName : QString)
  | createNewSchema (w : World β) (appName schemaId schemaPath : QString)
  | getInstance (appName schemaId schemaPath : QString)
  | setOnValueChangedCallback (this : Nat) (callback : Option Callback)

/-- The process state after one call; `none` when the call ended in `qFatal`. -/
def step (P : Platform β ν) (op : Op β) (s : Process) : Option Process :=
  match op with
  | Op.selectSchema w schemaId schemaPath appName =>
    match selectSchema P w schemaId schemaPath appName s with
    | Outcome.aborted => none
    | Outcome.returned _ s1 _ => some s1
  | Op.createNewSchema w appName schemaId schemaPath =>
    match createNewSchema P w appName schemaId schemaPath s with
    | Outcome.aborted => none
    | Outcome.returned _ s1 _ => some s1
  | Op.getInstance appName schemaId schemaPath =>
    some (DGConfigure.instance P appName schemaId schemaPath s).2
  | Op.setOnValueChangedCallback this callback =>
    some (setOnValueChangedCallback this callback s)

/-- The process state after a sequence of calls; `none` when one of them ended in `qFatal`. -/
def run (P : Platform β ν) : List (Op β) → Process → Option Process
  | [], s => some s
  | op :: rest, s =>
    match step P op s with
    | some s1 => run P rest s1
    | none => none

/-- A sequence of calls to `instance`: the pointers returned, in order, and the final state. -/
def instanceCalls (P : Platform β ν) :
    List (QString × QString × QString) → Process → List Nat × Process
  | [], s => ([], s)
  | (appName, schemaId, schemaPath) :: rest, s =>
    let r := DGConfigure.instance P appName schemaId schemaPath s
    let t := instanceCalls P rest r.2
    (r.1 :: t.1, t.2)

/-- A sequence of `setOnValueChangedCallback` registrations on the object at `this`. -/
def registerAll (this : Nat) (callbacks : List (Option Callback)) (s : Process) : Process :=
  callbacks.foldl (fun st callback => setOnValueChangedCallback this callback st) s

/-- A sequence of calls on `s` ends normally in `t`. -/
def Reaches (P : Platform β ν) (s t : Process) : Prop :=
  ∃ ops : List (Op β), run P ops s = some t

end Runs

/-- Well-formedness of the heap and of the registry: every pointer held is the address of an
object, the `i`-th `DGConfigure` owns the `i`-th `QGSettings`, whose `changed` signal has the
single slot capturing it, the static of `instance` is not an entry of `s_schemaVec`, and the
entries of `s_schemaVec` have pairwise different stored identities. -/
structure Inv (s : Process) : Prop where
  settings_length : s.settings.length = s.objects.length
  registry_lt : ∀ p ∈ s.s_schemaVec, p < s.objects.length
  gs_lt : ∀ g, s.gs = some g → g < s.objects.length
  gs_not_mem : ∀ g, s.gs = some g → g ∉ s.s_schemaVec
  pSettings_eq : ∀ (i : Nat) (o : DGConfigure), s.objects[i]? = some o → o.m_schemaInfo.m_pSettings = i
  changed_eq : ∀ (i : Nat) (q : QGSettings), s.settings[i]? = some q → q.changed = [i]
  registry_nodup : (s.s_schemaVec.map (identityAt s.objects)).Nodup

/-- The state `t` extends `s`: the registry grew at its end only, no object was removed, the
objects of `s` kept their stored identity, and an initialised `gs` kept its value. -/
structure Ext (s t : Process) : Prop where
  registry : ∃ l, t.s_schemaVec = s.s_schemaVec ++ l
  length_le : s.objects.length ≤ t.objects.length
  identity_eq : ∀ p, p < s.objects.length → identityAt t.objects p = identityAt s.objects p
  gs_eq : ∀ g, s.gs = some g → t.gs = some g

section Example

/-- A small in-memory settings store: the installed schema ids and the key/value pairs. -/
structure MemStore where
  installed : List QByteArray
  values : List (QString × QString)
  deriving DecidableEq, Repr

/-- A platform over `MemStore`. The string conversions are those of Qt on ASCII text; a write
is accepted exactly for an existing key, and a reset stores the empty string. -/
def memPlatform : Platform MemStore QString where
  toUtf8 := fun s => s.data.map Char.toNat
  fromUtf8 := fun b => String.mk (b.map Char.ofNat)
  toString := fun v => v
  ofString := fun s => s
  isSchemaInstalled := fun st id => decide (id ∈ st.installed)
  keys := fun st _ => st.values.map Prod.fst
  get := fun st _ key => ((st.values.lookup key).getD "")
  trySet := fun st _ key v =>
    (decide (key ∈ st.values.map Prod.fst),
      { st with values := st.values.map (fun kv => if kv.1 = key then (key, v) else kv) })
  reset := fun st _ key =>
    { st with values := st.values.map (fun kv => if kv.1 = key then (key, "") else kv) }

/-- A store with the default schema and `com.test.mytest` installed and one key. -/
def memStore : MemStore :=
  { installed := [s_defaultSchemaId, memPlatform.toUtf8 "com.test.mytest"]
    values := [("logFormat", "format")] }

/-- The world of `memStore` before any library call. -/
def memWorld : World MemStore := { store := memStore, calls := [] }

/-- A world in which no schema is installed. -/
def memWorldBare : World MemStore := { store := { installed := [], values := [] }, calls := [] }

/-- The default instance of application `myapp`, as `instance("myapp")` constructs it first. -/
def memInstance : DGConfigure :=
  ⟨{ m_schemaId := s_defaultSchemaId
     m_schemaPath := s_defaultSchemaPath
     m_appName := memPlatform.toUtf8 "myapp"
     m_pSettings := 0
     m_onValueChanged := none }⟩

/-- The calls `selectSchema("com.test.mytest", "/com/test/mytest/", "myapp")` and
`selectSchema("com.deepin.dtk", "/x/", "other")`, both in `memWorld`. -/
def memCalls : List (Op MemStore) :=
  [Op.selectSchema memWorld "com.test.mytest" "/com/test/mytest/" "myapp",
   Op.selectSchema memWorld "com.deepin.dtk" "/x/" "other"]

/-- The process state after the first call of `memCalls`. -/
def memFirst : Process :=
  { objects := [⟨{ m_schemaId := memPlatform.toUtf8 "com.test.mytest"
                   m_schemaPath := memPlatform.toUtf8 "/com/test/mytest/"
                   m_appName := memPlatform.toUtf8 "myapp"
                   m_pSettings := 0
                   m_onValueChanged := none }⟩]
    settings := [{ schemaId := memPlatform.toUtf8 "com.test.mytest"
                   path := memPlatform.toUtf8 "/com/test/mytest/myapp/"
                   changed := [0] }]
    s_schemaVec := [0]
    gs := none
    atexitDestroy := 1 }

/-- The process state after both calls of `memCalls`. -/
def memLater : Process :=
  { objects := memFirst.objects ++
      [⟨{ m_schemaId := s_defaultSchemaId
          m_schemaPath := memPlatform.toUtf8 "/x/"
          m_appName := memPlatform.toUtf8 "other"
          m_pSettings := 1
          m_onValueChanged := none }⟩]
    settings := memFirst.settings ++
      [{ schemaId := s_defaultSchemaId
         path := memPlatform.toUtf8 "/x/other/"
         changed := [1] }]
    s_schemaVec := [0, 1]
    gs := none
    atexitDestroy := 2 }

end Example

/-! ## Lemmas on the accessors -/

section AccessorLemmas

variable {β ν : Type}

theorem indexOfFrom_eq_neg_one (key : QString) (l : List QString) (i : Nat) :
    indexOfFrom key l i = -1 ↔ key ∉ l := by
  induction l generalizing i with
  | nil => simp [indexOfFrom]
  | cons k rest ih =>
    by_cases h : k = key
    · subst h
      simp only [indexOfFrom, if_true, List.mem_cons, true_or, not_true_eq_false, iff_false]
      omega
    · have h2 : ¬ key = k := fun e => h e.symm
      simp [indexOfFrom, h, h2, ih]

theorem indexOf_ne_neg_one (l : List QString) (key : QString) :
    indexOf l key ≠ -1 ↔ key ∈ l := by
  unfold indexOf
  rw [Ne, indexOfFrom_eq_neg_one]
  exact not_not

theorem isValidSchemaId_fst (P : Platform β ν) (w : World β) (schemaId : QString) :
    (isValidSchemaId P w schemaId).1 = P.isSchemaInstalled w.store (P.toUtf8 schemaId) := by
  unfold isValidSchemaId
  cases h : P.isSchemaInstalled w.store (P.toUtf8 schemaId) <;> simp [h]

theorem isValidSchemaId_snd (P : Platform β ν) (w : World β) (schemaId : QString) :
    (isValidSchemaId P w schemaId).2 =
      { store := w.store
        calls := w.calls ++ [BackendCall.isSchemaInstalled (P.toUtf8 schemaId)] } := by
  unfold isValidSchemaId
  cases h : P.isSchemaInstalled w.store (P.toUtf8 schemaId) <;> simp [h]

theorem isValidKey_store (P : Platform β ν) (w : World β) (self : DGConfigure)
    (key : QString) : (isValidKey P w self key).2.store = w.store := by
  unfold isValidKey
  simp only [isValidSchemaId_snd]
  split <;> rfl

theorem isValidKey_fst (P : Platform β ν) (w : World β) (self : DGConfigure)
    (key : QString) :
    (isValidKey P w self key).1 =
      (P.isSchemaInstalled w.store (P.toUtf8 (P.fromUtf8 self.m_schemaInfo.m_schemaId)) &&
        decide (key ∈ P.keys w.store self.m_schemaInfo.m_pSettings)) := by
  unfold isValidKey
  simp only [isValidSchemaId_fst, isValidSchemaId_snd]
  cases P.isSchemaInstalled w.store (P.toUtf8 (P.fromUtf8 self.m_schemaInfo.m_schemaId))
  · simp
  · simp [indexOf_ne_neg_one]

theorem isValidKey_calls (P : Platform β ν) (w : World β) (self : DGConfigure)
    (key : QString) :
    ∃ q, (isValidKey P w self key).2.calls = w.calls ++ q ∧
      ∀ c ∈ q, c = BackendCall.isSchemaInstalled
          (P.toUtf8 (P.fromUtf8 self.m_schemaInfo.m_schemaId)) ∨
        c = BackendCall.keys self.m_schemaInfo.m_pSettings := by
  unfold isValidKey
  simp only [isValidSchemaId_snd]
  split
  · exact ⟨[BackendCall.isSchemaInstalled
        (P.toUtf8 (P.fromUtf8 self.m_schemaInfo.m_schemaId)),
      BackendCall.keys self.m_schemaInfo.m_pSettings], by simp, by simp⟩
  · exact ⟨[BackendCall.isSchemaInstalled
        (P.toUtf8 (P.fromUtf8 self.m_schemaInfo.m_schemaId))], by simp, by simp⟩

theorem allKeys_fst (P : Platform β ν) (w : World β) (self : DGConfigure) :
    (allKeys P w self).1 =
      (if P.isSchemaInstalled w.store (P.toUtf8 (P.fromUtf8 self.m_schemaInfo.m_schemaId)) then
        P.keys w.store self.m_schemaInfo.m_pSettings
      else []) := by
  unfold allKeys
  simp only [isValidSchemaId_fst, isValidSchemaId_snd]
  cases P.isSchemaInstalled w.store (P.toUtf8 (P.fromUtf8 self.m_schemaInfo.m_schemaId)) <;>
    simp

theorem isValidKey_iff_mem_allKeys (P : Platform β ν) (w : World β) (self : DGConfigure)
    (key : QString) :
    (isValidKey P w self key).1 = true ↔ key ∈ (allKeys P w self).1 := by
  rw [isValidKey_fst, allKeys_fst]
  cases P.isSchemaInstalled w.store (P.toUtf8 (P.fromUtf8 self.m_schemaInfo.m_schemaId)) <;>
    simp

theorem getValue_fst (P : Platform β ν) (w : World β) (self : DGConfigure) (key : QString) :
    (getValue P w self key).1 =
      (if (isValidKey P w self key).1 = true then
        P.toString (P.get w.store self.m_schemaInfo.m_pSettings key)
      else "") := by
  unfold getValue
  simp only [isValidKey_store]
  split <;> rfl

theorem getValue_fst_congr (P : Platform β ν) (w1 w2 : World β) (h : w1.store = w2.store)
    (self : DGConfigure) (key : QString) :
    (getValue P w1 self key).1 = (getValue P w2 self key).1 := by
  rw [getValue_fst, getValue_fst, isValidKey_fst, isValidKey_fst, h]

end AccessorLemmas

/-! ## Lemmas on the registry -/

section RegistryLemmas

variable {β ν : Type}

theorem findSchema_eq_none {objects : List DGConfigure} {id path app : QByteArray}
    {l : List Nat} (h : findSchema objects id path app l = none) :
    ∀ p ∈ l, identityAt objects p ≠ some (id, path, app) := by
  induction l with
  | nil => simp
  | cons q rest ih =>
    intro p hp
    unfold findSchema at h
    rcases List.mem_cons.1 hp with rfl | hp
    · cases ho : objects[p]? with
      | none => simp [identityAt, ho]
      | some o =>
        rw [ho] at h
        simp only at h
        split at h
        · exact absurd h (by simp)
        · rename_i hne
          intro he
          apply hne
          simp only [identityAt, ho, Option.map_some', identity, Option.some.injEq,
            Prod.mk.injEq] at he
          exact he
    · cases ho : objects[q]? with
      | none =>
        rw [ho] at h
        exact ih h p hp
      | some o =>
        rw [ho] at h
        simp only at h
        split at h
        · exact absurd h (by simp)
        · exact ih h p hp

theorem findSchema_congr {objects objects1 : List DGConfigure} (id path app : QByteArray)
    {l : List Nat} (h : ∀ p ∈ l, identityAt objects1 p = identityAt objects p) :
    findSchema objects1 id path app l = findSchema objects id path app l := by
  induction l with
  | nil => rfl
  | cons q rest ih =>
    have hq := h q (List.mem_cons_self _ _)
    have ih1 := ih (fun p hp => h p (List.mem_cons_of_mem _ hp))
    unfold findSchema
    cases ho : objects[q]? with
    | none =>
      cases ho1 : objects1[q]? with
      | none => simpa using ih1
      | some o1 => simp [identityAt, ho, ho1] at hq
    | some o =>
      cases ho1 : objects1[q]? with
      | none => simp [identityAt, ho, ho1] at hq
      | some o1 =>
        simp only [identityAt, ho, ho1, Option.map_some', identity, Option.some.injEq,
          Prod.mk.injEq] at hq
        simp only [hq.1, hq.2.1, hq.2.2, ih1]

theorem findSchema_append_of_some {objects : List DGConfigure} {id path app : QByteArray}
    {l : List Nat} {X : Nat} (h : findSchema objects id path app l = some X)
    (l1 : List Nat) : findSchema objects id path app (l ++ l1) = some X := by
  induction l with
  | nil => simp [findSchema] at h
  | cons q rest ih =>
    unfold findSchema at h
    rw [List.cons_append]
    unfold findSchema
    cases ho : objects[q]? with
    | none =>
      rw [ho] at h
      exact ih h
    | some o =>
      rw [ho] at h
      simp only at h ⊢
      split
      · rename_i heq
        simpa [heq] using h
      · rename_i hne
        rw [if_neg hne] at h
        exact ih h

theorem findSchema_append_of_none {objects : List DGConfigure} {id path app : QByteArray}
    {l : List Nat} (h : findSchema objects id path app l = none)
    (l1 : List Nat) :
    findSchema objects id path app (l ++ l1) = findSchema objects id path app l1 := by
  induction l with
  | nil => rfl
  | cons q rest ih =>
    unfold findSchema at h
    rw [List.cons_append]
    conv_lhs => unfold findSchema
    cases ho : objects[q]? with
    | none =>
      rw [ho] at h
      exact ih h
    | some o =>
      rw [ho] at h
      simp only at h ⊢
      split
      · rename_i heq
        simp [heq] at h
      · rename_i hne
        rw [if_neg hne] at h
        exact ih h

theorem identityAt_append_left {objects : List DGConfigure} (extra : List DGConfigure)
    {p : Nat} (hp : p < objects.length) :
    identityAt (objects ++ extra) p = identityAt objects p := by
  simp [identityAt, List.getElem?_append_left hp]

theorem identityAt_concat_length (objects : List DGConfigure) (o : DGConfigure) :
    identityAt (objects ++ [o]) objects.length = some (identity o) := by
  simp [identityAt]

theorem map_identityAt_append {objects : List DGConfigure} (extra : List DGConfigure)
    {l : List Nat} (h : ∀ p ∈ l, p < objects.length) :
    l.map (identityAt (objects ++ extra)) = l.map (identityAt objects) :=
  List.map_congr_left (fun p hp => identityAt_append_left extra (h p hp))

theorem Inv.init : Inv Process.init := by
  constructor <;> simp [Process.init]

theorem inv_construct {s : Process} (hs : Inv s) (o : DGConfigure) (q : QGSettings)
    (ho : o.m_schemaInfo.m_pSettings = s.settings.length)
    (hq : q.changed = [s.objects.length])
    (vec : List Nat) (gs : Option Nat) (n : Nat)
    (hvec : ∀ p ∈ vec, p < s.objects.length + 1)
    (hgs : ∀ g, gs = some g → g < s.objects.length + 1 ∧ g ∉ vec)
    (hnd : (vec.map (identityAt (s.objects ++ [o]))).Nodup) :
    Inv ⟨s.objects ++ [o], s.settings ++ [q], vec, gs, n⟩ := by
  constructor
  · simp [hs.settings_length]
  · simpa using hvec
  · intro g hg
    simpa using (hgs g hg).1
  · intro g hg
    exact (hgs g hg).2
  · intro i o1 h
    simp only [List.getElem?_append] at h
    split at h
    · exact hs.pSettings_eq i o1 h
    · rename_i hlt
      have hi : i - s.objects.length = 0 := by
        by_contra hne
        rw [List.getElem?_eq_none (by simp; omega)] at h
        exact absurd h (by simp)
      rw [hi] at h
      have : o = o1 := by simpa using h
      subst this
      rw [ho, hs.settings_length]
      omega
  · intro i q1 h
    simp only [List.getElem?_append] at h
    split at h
    · exact hs.changed_eq i q1 h
    · rename_i hlt
      have hi : i - s.settings.length = 0 := by
        by_contra hne
        rw [List.getElem?_eq_none (by simp; omega)] at h
        exact absurd h (by simp)
      rw [hi] at h
      have : q = q1 := by simpa using h
      subst this
      rw [hq, ← hs.settings_length]
      congr 1
      omega
  · exact hnd

theorem createNewSchema_cases (P : Platform β ν) (w : World β)
    (appName schemaId schemaPath : QString) (s : Process) :
    (isEmpty schemaPath = true ∧
      createNewSchema P w appName schemaId schemaPath s = Outcome.aborted) ∨
    (isEmpty schemaPath = false ∧
      P.isSchemaInstalled w.store (P.toUtf8 schemaId) = false ∧
      createNewSchema P w appName schemaId schemaPath s =
        Outcome.returned none s (isValidSchemaId P w schemaId).2) ∨
    (isEmpty schemaPath = false ∧
      P.isSchemaInstalled w.store (P.toUtf8 schemaId) = true ∧
      ∃ X, findSchema s.objects (P.toUtf8 schemaId) (P.toUtf8 schemaPath) (P.toUtf8 appName)
          s.s_schemaVec = some X ∧
        createNewSchema P w appName schemaId schemaPath s =
          Outcome.returned (some X) s (isValidSchemaId P w schemaId).2) ∨
    (isEmpty schemaPath = false ∧
      P.isSchemaInstalled w.store (P.toUtf8 schemaId) = true ∧
      findSchema s.objects (P.toUtf8 schemaId) (P.toUtf8 schemaPath) (P.toUtf8 appName)
          s.s_schemaVec = none ∧
      createNewSchema P w appName schemaId schemaPath s =
        Outcome.returned (some s.objects.length)
          { (DGConfigure.new P appName schemaId schemaPath s).2 with
            s_schemaVec := s.s_schemaVec ++ [s.objects.length] }
          (isValidSchemaId P w schemaId).2) := by
  unfold createNewSchema
  cases he : isEmpty schemaPath
  · right
    cases hi : P.isSchemaInstalled w.store (P.toUtf8 schemaId)
    · left
      simp [isValidSchemaId_fst, hi]
    · right
      cases hf : findSchema s.objects (P.toUtf8 schemaId) (P.toUtf8 schemaPath)
          (P.toUtf8 appName) s.s_schemaVec
      · right
        simp [isValidSchemaId_fst, hi, hf, DGConfigure.new]
      · left
        simp [isValidSchemaId_fst, hi, hf]
  · left
    simp

theorem inv_new (P : Platform β ν) (appName schemaId schemaPath : QString) {s : Process}
    (hs : Inv s) (gs : Option Nat) (hgs : ∀ g, gs = some g → g < s.objects.length + 1)
    (hgs1 : ∀ g, gs = some g → g ∉ s.s_schemaVec) :
    Inv { (DGConfigure.new P appName schemaId schemaPath s).2 with gs := gs } := by
  refine inv_construct hs _ _ rfl rfl _ _ _ ?_ ?_ ?_
  · intro p hp
    exact Nat.lt_succ_of_lt (hs.registry_lt p hp)
  · intro g hg
    exact ⟨hgs g hg, hgs1 g hg⟩
  · show (s.s_schemaVec.map (identityAt (s.objects ++ _))).Nodup
    rw [map_identityAt_append _ hs.registry_lt]
    exact hs.registry_nodup

theorem inv_push (P : Platform β ν) (appName schemaId schemaPath : QString) {s : Process}
    (hs : Inv s)
    (hf : findSchema s.objects (P.toUtf8 schemaId) (P.toUtf8 schemaPath) (P.toUtf8 appName)
      s.s_schemaVec = none) :
    Inv { (DGConfigure.new P appName schemaId schemaPath s).2 with
          s_schemaVec := s.s_schemaVec ++ [s.objects.length] } := by
  refine inv_construct hs _ _ rfl rfl _ _ _ ?_ ?_ ?_
  · intro p hp
    rcases List.mem_append.1 hp with h | h
    · exact Nat.lt_succ_of_lt (hs.registry_lt p h)
    · simp at h
      omega
  · intro g hg
    have hlt := hs.gs_lt g hg
    refine ⟨Nat.lt_succ_of_lt hlt, ?_⟩
    intro hmem
    rcases List.mem_append.1 hmem with h | h
    · exact hs.gs_not_mem g hg h
    · simp at h
      omega
  · rw [List.map_append, map_identityAt_append _ hs.registry_lt]
    refine List.Nodup.append hs.registry_nodup (by simp) ?_
    intro x hx hx1
    simp only [List.map_cons, List.map_nil, List.mem_singleton] at hx1
    rw [identityAt_concat_length] at hx1
    obtain ⟨p, hp, hpx⟩ := List.mem_map.1 hx
    exact findSchema_eq_none hf p hp (by rw [hpx, hx1]; rfl)

theorem identityAt_modify (objects : List DGConfigure) (this p : Nat)
    (callback : Option Callback) :
    identityAt (objects.modify
      (fun o => { o with m_schemaInfo := { o.m_schemaInfo with m_onValueChanged := callback } })
      this) p = identityAt objects p := by
  simp only [identityAt, List.getElem?_modify]
  cases objects[p]? with
  | none => rfl
  | some o =>
    by_cases h : this = p <;> simp [h, identity]

theorem inv_setOnValueChangedCallback (this : Nat) (callback : Option Callback) {s : Process}
    (hs : Inv s) : Inv (setOnValueChangedCallback this callback s) := by
  constructor
  · simp [setOnValueChangedCallback, hs.settings_length]
  · intro p hp
    simpa [setOnValueChangedCallback] using hs.registry_lt p hp
  · intro g hg
    simpa [setOnValueChangedCallback] using hs.gs_lt g hg
  · intro g hg
    exact hs.gs_not_mem g hg
  · intro i o h
    simp only [setOnValueChangedCallback, List.getElem?_modify] at h
    cases ho : s.objects[i]? with
    | none => simp [ho] at h
    | some o1 =>
      have h1 := hs.pSettings_eq i o1 ho
      rw [ho] at h
      by_cases hti : this = i
      · simp only [hti, if_true, Option.map_eq_map, Option.map_some', Option.some.injEq] at h
        rw [← h]
        exact h1
      · simp only [hti, if_false, Option.map_eq_map, Option.map_some', Option.some.injEq] at h
        rw [← h]
        exact h1
  · intro i q h
    exact hs.changed_eq i q h
  · show (s.s_schemaVec.map (identityAt (s.objects.modify _ this))).Nodup
    rw [List.map_congr_left (fun p _ => identityAt_modify s.objects this p callback)]
    exact hs.registry_nodup

theorem inv_instance (P : Platform β ν) (appName schemaId schemaPath : QString) {s : Process}
    (hs : Inv s) : Inv (DGConfigure.instance P appName schemaId schemaPath s).2 := by
  unfold DGConfigure.instance
  cases hg : s.gs with
  | some g => exact hs
  | none =>
    refine inv_new P appName schemaId schemaPath hs _ ?_ ?_
    · intro g h
      have : s.objects.length = g := by simpa [DGConfigure.new] using h
      omega
    · intro g h hmem
      have : s.objects.length = g := by simpa [DGConfigure.new] using h
      have := hs.registry_lt g hmem
      omega

theorem inv_createNewSchema (P : Platform β ν) (w : World β)
    (appName schemaId schemaPath : QString) {s t : Process} {r : Option Nat} {w1 : World β}
    (hs : Inv s)
    (h : createNewSchema P w appName schemaId schemaPath s = Outcome.returned r t w1) :
    Inv t := by
  rcases createNewSchema_cases P w appName schemaId schemaPath s with
    ⟨_, hc⟩ | ⟨_, _, hc⟩ | ⟨_, _, X, _, hc⟩ | ⟨_, _, hf, hc⟩
  · rw [hc] at h
    exact absurd h (by simp)
  · rw [hc] at h
    injection h with _ h2 _
    exact h2 ▸ hs
  · rw [hc] at h
    injection h with _ h2 _
    exact h2 ▸ hs
  · rw [hc] at h
    injection h with _ h2 _
    exact h2 ▸ inv_push P appName schemaId schemaPath hs hf

theorem inv_step (P : Platform β ν) (op : Op β) {s t : Process} (hs : Inv s)
    (h : step P op s = some t) : Inv t := by
  cases op with
  | selectSchema w schemaId schemaPath appName =>
    simp only [step, selectSchema] at h
    split at h
    · exact absurd h (by simp)
    · rename_i r s1 w1 hc
      have : s1 = t := by simpa using h
      exact this ▸ inv_createNewSchema P w appName schemaId schemaPath hs hc
  | createNewSchema w appName schemaId schemaPath =>
    simp only [step] at h
    split at h
    · exact absurd h (by simp)
    · rename_i r s1 w1 hc
      have : s1 = t := by simpa using h
      exact this ▸ inv_createNewSchema P w appName schemaId schemaPath hs hc
  | getInstance appName schemaId schemaPath =>
    have : (DGConfigure.instance P appName schemaId schemaPath s).2 = t := by
      simpa [step] using h
    exact this ▸ inv_instance P appName schemaId schemaPath hs
  | setOnValueChangedCallback this callback =>
    have h1 : setOnValueChangedCallback this callback s = t := by simpa [step] using h
    exact h1 ▸ inv_setOnValueChangedCallback this callback hs

theorem inv_run (P : Platform β ν) (ops : List (Op β)) {s t : Process} (hs : Inv s)
    (h : run P ops s = some t) : Inv t := by
  induction ops generalizing s with
  | nil =>
    have : s = t := by simpa [run] using h
    exact this ▸ hs
  | cons op rest ih =>
    simp only [run] at h
    split at h
    · rename_i s1 hstep
      exact ih (inv_step P op hs hstep) h
    · exact absurd h (by simp)

theorem Ext.refl (s : Process) : Ext s s :=
  ⟨⟨[], by simp⟩, le_refl _, fun _ _ => rfl, fun _ h => h⟩

theorem Ext.trans {s t u : Process} (h1 : Ext s t) (h2 : Ext t u) : Ext s u := by
  obtain ⟨l1, hl1⟩ := h1.registry
  obtain ⟨l2, hl2⟩ := h2.registry
  refine ⟨⟨l1 ++ l2, by rw [hl2, hl1, List.append_assoc]⟩,
    le_trans h1.length_le h2.length_le, ?_, fun g hg => h2.gs_eq g (h1.gs_eq g hg)⟩
  intro p hp
  rw [h2.identity_eq p (lt_of_lt_of_le hp h1.length_le), h1.identity_eq p hp]

theorem ext_new (P : Platform β ν) (appName schemaId schemaPath : QString) (s : Process)
    (l : List Nat) (gs : Option Nat) (hgs : ∀ g, s.gs = some g → gs = some g) :
    Ext s { (DGConfigure.new P appName schemaId schemaPath s).2 with
            s_schemaVec := s.s_schemaVec ++ l, gs := gs } := by
  refine ⟨⟨l, rfl⟩, by simp [DGConfigure.new], ?_, hgs⟩
  intro p hp
  exact identityAt_append_left _ hp

theorem ext_createNewSchema (P : Platform β ν) (w : World β)
    (appName schemaId schemaPath : QString) {s t : Process} {r : Option Nat} {w1 : World β}
    (h : createNewSchema P w appName schemaId schemaPath s = Outcome.returned r t w1) :
    Ext s t := by
  rcases createNewSchema_cases P w appName schemaId schemaPath s with
    ⟨_, hc⟩ | ⟨_, _, hc⟩ | ⟨_, _, X, _, hc⟩ | ⟨_, _, hf, hc⟩
  · rw [hc] at h
    exact absurd h (by simp)
  · rw [hc] at h
    injection h with _ h2 _
    exact h2 ▸ Ext.refl s
  · rw [hc] at h
    injection h with _ h2 _
    exact h2 ▸ Ext.refl s
  · rw [hc] at h
    injection h with _ h2 _
    exact h2 ▸ ext_new P appName schemaId schemaPath s [s.objects.length] s.gs (fun _ hg => hg)

theorem ext_step (P : Platform β ν) (op : Op β) {s t : Process}
    (h : step P op s = some t) : Ext s t := by
  cases op with
  | selectSchema w schemaId schemaPath appName =>
    simp only [step, selectSchema] at h
    split at h
    · exact absurd h (by simp)
    · rename_i r s1 w1 hc
      have : s1 = t := by simpa using h
      exact this ▸ ext_createNewSchema P w appName schemaId schemaPath hc
  | createNewSchema w appName schemaId schemaPath =>
    simp only [step] at h
    split at h
    · exact absurd h (by simp)
    · rename_i r s1 w1 hc
      have : s1 = t := by simpa using h
      exact this ▸ ext_createNewSchema P w appName schemaId schemaPath hc
  | getInstance appName schemaId schemaPath =>
    have h1 : (DGConfigure.instance P appName schemaId schemaPath s).2 = t := by
      simpa [step] using h
    rw [← h1]
    unfold DGConfigure.instance
    cases hg : s.gs with
    | some g => exact Ext.refl s
    | none =>
      have := ext_new P appName schemaId schemaPath s [] (some s.objects.length)
        (fun g h => by rw [hg] at h; exact absurd h (by simp))
      simpa [DGConfigure.new] using this
  | setOnValueChangedCallback this callback =>
    have h1 : setOnValueChangedCallback this callback s = t := by simpa [step] using h
    rw [← h1]
    exact ⟨⟨[], by simp [setOnValueChangedCallback]⟩, by simp [setOnValueChangedCallback],
      fun p _ => identityAt_modify s.objects this p callback, fun _ hg => hg⟩

theorem ext_run (P : Platform β ν) (ops : List (Op β)) {s t : Process}
    (h : run P ops s = some t) : Ext s t := by
  induction ops generalizing s with
  | nil =>
    have : s = t := by simpa [run] using h
    exact this ▸ Ext.refl s
  | cons op rest ih =>
    simp only [run] at h
    split at h
    · rename_i s1 hstep
      exact (ext_step P op hstep).trans (ih h)
    · exact absurd h (by simp)

theorem registry_unique_of_inv {s : Process} (hs : Inv s) (i j pi pj : Nat)
    (oi oj : DGConfigure) (hi : s.s_schemaVec[i]? = some pi) (hj : s.s_schemaVec[j]? = some pj)
    (hoi : s.objects[pi]? = some oi) (hoj : s.objects[pj]? = some oj)
    (hid : oi.m_schemaInfo.m_schemaId = oj.m_schemaInfo.m_schemaId)
    (hpath : oi.m_schemaInfo.m_schemaPath = oj.m_schemaInfo.m_schemaPath)
    (happ : oi.m_schemaInfo.m_appName = oj.m_schemaInfo.m_appName) : i = j := by
  obtain ⟨hil, hie⟩ := List.getElem?_eq_some_iff.1 hi
  obtain ⟨hjl, hje⟩ := List.getElem?_eq_some_iff.1 hj
  have hil1 : i < (s.s_schemaVec.map (identityAt s.objects)).length := by simpa using hil
  have hjl1 : j < (s.s_schemaVec.map (identityAt s.objects)).length := by simpa using hjl
  have heq : (s.s_schemaVec.map (identityAt s.objects))[i] =
      (s.s_schemaVec.map (identityAt s.objects))[j] := by
    rw [List.getElem_map, List.getElem_map, hie, hje]
    simp [identityAt, hoi, hoj, identity, hid, hpath, happ]
  exact (List.Nodup.getElem_inj_iff hs.registry_nodup).1 heq

theorem registry_live_of_inv {s : Process} (hs : Inv s) (p : Nat) (hp : p ∈ s.s_schemaVec) :
    ∃ o, s.objects[p]? = some o :=
  ⟨_, List.getElem?_eq_getElem (hs.registry_lt p hp)⟩

theorem instance_of_gs {P : Platform β ν} {s : Process} {g : Nat} (hg : s.gs = some g)
    (appName schemaId schemaPath : QString) :
    DGConfigure.instance P appName schemaId schemaPath s = (g, s) := by
  simp [DGConfigure.instance, hg]

theorem instanceCalls_of_gs (P : Platform β ν) {s : Process} {g : Nat} (hg : s.gs = some g)
    (calls : List (QString × QString × QString)) :
    instanceCalls P calls s = (List.replicate calls.length g, s) := by
  induction calls with
  | nil => rfl
  | cons c rest ih =>
    obtain ⟨a, i, p⟩ := c
    simp only [instanceCalls, instance_of_gs hg, ih, List.length_cons, List.replicate_succ]

theorem registerAll_spec (this : Nat) (callbacks : List (Option Callback)) (s : Process)
    (o : DGConfigure) (ho : s.objects[this]? = some o) :
    (registerAll this callbacks s).objects[this]? =
        some ⟨{ o.m_schemaInfo with
                m_onValueChanged := callbacks.getLast?.getD o.m_schemaInfo.m_onValueChanged }⟩ ∧
      (∀ p, p ≠ this → (registerAll this callbacks s).objects[p]? = s.objects[p]?) ∧
      (registerAll this callbacks s).settings = s.settings ∧
      (registerAll this callbacks s).s_schemaVec = s.s_schemaVec ∧
      (registerAll this callbacks s).gs = s.gs ∧
      (registerAll this callbacks s).atexitDestroy = s.atexitDestroy := by
  induction callbacks generalizing s o with
  | nil => simp [registerAll, ho]
  | cons cb rest ih =>
    have hstep : registerAll this (cb :: rest) s =
        registerAll this rest (setOnValueChangedCallback this cb s) := rfl
    have ho1 : (setOnValueChangedCallback this cb s).objects[this]? =
        some ⟨{ o.m_schemaInfo with m_onValueChanged := cb }⟩ := by
      simp [setOnValueChangedCallback, List.getElem?_modify, ho]
    obtain ⟨h1, h2, h3, h4, h5, h6⟩ := ih (setOnValueChangedCallback this cb s) _ ho1
    rw [hstep]
    refine ⟨?_, ?_, h3, h4, h5, h6⟩
    · rw [h1, List.getLast?_cons]
      simp
    · intro p hp
      rw [h2 p hp]
      simp only [setOnValueChangedCallback, List.getElem?_modify]
      cases s.objects[p]? with
      | none => rfl
      | some o1 =>
        have hne : ¬ this = p := fun h => hp h.symm
        simp [hne]

theorem emitChanged_of_inv {s t : Process} (hs : Inv s) (this : Nat) (o o1 : DGConfigure)
    (ho : s.objects[this]? = some o) (hset : t.settings = s.settings)
    (ho1 : t.objects[this]? = some o1) (key : QString) :
    emitChanged t o.m_schemaInfo.m_pSettings key = onChangedLambda o1 key := by
  have hlt : this < s.objects.length := (List.getElem?_eq_some_iff.1 ho).1
  have hlt1 : this < s.settings.length := by rw [hs.settings_length]; exact hlt
  have hq := hs.changed_eq this _ (List.getElem?_eq_getElem hlt1)
  rw [hs.pSettings_eq this o ho]
  unfold emitChanged
  rw [hset, List.getElem?_eq_getElem hlt1]
  simp only [hq, List.flatMap_cons, List.flatMap_nil, List.append_nil, ho1]

end RegistryLemmas

/-! ## The claims -/

section Claims

variable {β ν : Type}

/-- C4 (invalid schema id): in every registry state, for a non-empty `schemaPath` and a
`schemaId` the backend reports as not installed, `selectSchema` returns null and leaves the
whole process state, `s_schemaVec` and the heap of instances included, exactly as it was;
the only library call made is the installed check. -/
theorem selectSchema_not_installed (P : Platform β ν) (w : World β)
    (schemaId schemaPath appName : QString) (s : Process)
    (hpath : isEmpty schemaPath = false)
    (hinst : P.isSchemaInstalled w.store (P.toUtf8 schemaId) = false) :
    selectSchema P w schemaId schemaPath appName s =
      Outcome.returned none s
        { store := w.store
          calls := w.calls ++ [BackendCall.isSchemaInstalled (P.toUtf8 schemaId)] } := by
  unfold selectSchema
  rcases createNewSchema_cases P w appName schemaId schemaPath s with
    ⟨he, _⟩ | ⟨_, _, hc⟩ | ⟨_, hi, _⟩ | ⟨_, hi, _⟩
  · rw [hpath] at he
    exact absurd he (by simp)
  · rw [hc, isValidSchemaId_snd]
  · rw [hinst] at hi
    exact absurd hi (by simp)
  · rw [hinst] at hi
    exact absurd hi (by simp)

/-- C5 (empty path): `createNewSchema`, and so `selectSchema`, ends in `qFatal` for an empty
`schemaPath` whatever the other arguments; `instance("myapp", "com.deepin.dtk", "")` does
not: it returns a new object whose stored `m_schemaPath` is empty, after opening the
`QGSettings` connection at path `"myapp/"`. -/
theorem instance_empty_path_constructs :
    (∀ (σ τ : Type) (P : Platform σ τ) (w : World σ) (appName schemaId : QString)
        (s : Process), selectSchema P w schemaId "" appName s = Outcome.aborted) ∧
    DGConfigure.instance memPlatform "myapp" "com.deepin.dtk" "" Process.init =
      (0,
        { objects := [⟨{ m_schemaId := s_defaultSchemaId
                         m_schemaPath := []
                         m_appName := [109, 121, 97, 112, 112]
                         m_pSettings := 0
                         m_onValueChanged := none }⟩]
          settings := [{ schemaId := s_defaultSchemaId
                         path := [109, 121, 97, 112, 112, 47]
                         changed := [0] }]
          s_schemaVec := []
          gs := some 0
          atexitDestroy := 1 }) := by
  refine ⟨?_, by decide⟩
  intro σ τ P w appName schemaId s
  simp [selectSchema, createNewSchema, isEmpty]

/-- C6 (validation gating of reads): `getValue(key)` is the backend's `get(key)` converted
to a string when `isValidKey(key)` holds and the empty string otherwise; for a fixed backend
state it is the empty string for every key that is not an element of `allKeys()`, and when
the instance's schema id is not installed `allKeys()` is empty and `getValue` is the empty
string for every key. -/
theorem getValue_validation_gating (P : Platform β ν) (w : World β) (self : DGConfigure)
    (key : QString) :
    (getValue P w self key).1 =
        (if (isValidKey P w self key).1 = true then
          P.toString (P.get w.store self.m_schemaInfo.m_pSettings key)
        else "") ∧
      (key ∉ (allKeys P w self).1 → (getValue P w self key).1 = "") ∧
      ((isValidSchemaId P w (P.fromUtf8 self.m_schemaInfo.m_schemaId)).1 = false →
        (allKeys P w self).1 = [] ∧ ∀ k, (getValue P w self k).1 = "") := by
  refine ⟨getValue_fst P w self key, ?_, ?_⟩
  · intro h
    rw [getValue_fst, if_neg]
    rw [isValidKey_iff_mem_allKeys]
    exact h
  · intro h
    rw [isValidSchemaId_fst] at h
    refine ⟨by rw [allKeys_fst, h]; simp, ?_⟩
    intro k
    rw [getValue_fst, isValidKey_fst, h]
    simp

/-- C7 (validation gating of writes): `setValue(key, value)` returns true exactly when
`isValidKey(key)` holds and the backend's `trySet(key, value)` returns true; for a key that
is not in `allKeys()` it returns false, the store is unchanged, and the library calls it
made are those of the validation only, none of them a `trySet`. -/
theorem setValue_validation_gating (P : Platform β ν) (w : World β) (self : DGConfigure)
    (key value : QString) :
    ((setValue P w self key value).1 = true ↔
        (isValidKey P w self key).1 = true ∧
          (P.trySet w.store self.m_schemaInfo.m_pSettings key (P.ofString value)).1 = true) ∧
      (key ∉ (allKeys P w self).1 →
        (setValue P w self key value).1 = false ∧
          (setValue P w self key value).2 = (isValidKey P w self key).2 ∧
          (setValue P w self key value).2.store = w.store ∧
          ∃ q, (setValue P w self key value).2.calls = w.calls ++ q ∧
            ∀ c ∈ q, ∀ h k v, c ≠ BackendCall.trySet h k v) := by
  constructor
  · unfold setValue
    simp only [isValidKey_store]
    cases hv : (isValidKey P w self key).1 <;> simp
  · intro h
    have hv : (isValidKey P w self key).1 = false := by
      rw [← Bool.not_eq_true, isValidKey_iff_mem_allKeys]
      exact h
    have h2 : (setValue P w self key value).2 = (isValidKey P w self key).2 := by
      unfold setValue
      simp [hv]
    refine ⟨by unfold setValue; simp [hv], h2, by rw [h2, isValidKey_store], ?_⟩
    obtain ⟨q, hq, hall⟩ := isValidKey_calls P w self key
    refine ⟨q, by rw [h2, hq], ?_⟩
    intro c hc h1 k v hcv
    rcases hall c hc with h3 | h3 <;> rw [h3] at hcv <;> exact absurd hcv (by simp)

/-- C8 (`resetValue` guard): `resetValue(key)` calls the backend's `reset(key)` exactly when
`isValidKey(key)` is false; when `isValidKey(key)` holds it makes the validation queries
only, the store is unchanged and `getValue(key)` returns the same value after the call as
before it. -/
theorem resetValue_guard (P : Platform β ν) (w : World β) (self : DGConfigure)
    (key : QString) :
    ((isValidKey P w self key).1 = false →
        resetValue P w self key =
          { store := P.reset w.store self.m_schemaInfo.m_pSettings key
            calls := (isValidKey P w self key).2.calls ++
              [BackendCall.reset self.m_schemaInfo.m_pSettings key] }) ∧
      ((isValidKey P w self key).1 = true →
        resetValue P w self key = (isValidKey P w self key).2 ∧
          (resetValue P w self key).store = w.store ∧
          (getValue P (resetValue P w self key) self key).1 = (getValue P w self key).1) ∧
      (BackendCall.reset self.m_schemaInfo.m_pSettings key ∈
          (resetValue P w self key).calls.drop w.calls.length ↔
        (isValidKey P w self key).1 = false) := by
  obtain ⟨q, hq, hall⟩ := isValidKey_calls P w self key
  have hnot : BackendCall.reset self.m_schemaInfo.m_pSettings key ∉ q := by
    intro hc
    rcases hall _ hc with h3 | h3 <;> exact absurd h3 (by simp)
  refine ⟨?_, ?_, ?_⟩
  · intro hv
    unfold resetValue
    simp [hv, isValidKey_store]
  · intro hv
    have h2 : resetValue P w self key = (isValidKey P w self key).2 := by
      unfold resetValue
      simp [hv]
    refine ⟨h2, by rw [h2, isValidKey_store], ?_⟩
    exact getValue_fst_congr P _ _ (by rw [h2, isValidKey_store]) self key
  · cases hv : (isValidKey P w self key).1
    · have : (resetValue P w self key).calls =
          w.calls ++ (q ++ [BackendCall.reset self.m_schemaInfo.m_pSettings key]) := by
        unfold resetValue
        simp [hv, hq]
      simp [this]
    · have : (resetValue P w self key).calls = w.calls ++ q := by
        unfold resetValue
        simp [hv, hq]
      simp [this, hnot]

/-- C9 (default-instance singleton): starting before the first call of `instance`, every
call of a sequence of calls returns the same pointer, the object constructed by the first
call with the `(appName, schemaId, schemaPath)` given to it; the state after the whole
sequence is the state after the first call, so the later calls, whatever their arguments,
construct nothing. -/
theorem instance_singleton (P : Platform β ν) (s : Process) (hgs : s.gs = none)
    (appName schemaId schemaPath : QString) (rest : List (QString × QString × QString)) :
    instanceCalls P ((appName, schemaId, schemaPath) :: rest) s =
        (List.replicate (rest.length + 1) s.objects.length,
          (DGConfigure.instance P appName schemaId schemaPath s).2) ∧
      (DGConfigure.instance P appName schemaId schemaPath s).2.objects =
        s.objects ++
          [⟨{ m_schemaId := P.toUtf8 schemaId
              m_schemaPath := P.toUtf8 schemaPath
              m_appName := P.toUtf8 appName
              m_pSettings := s.settings.length
              m_onValueChanged := none }⟩] ∧
      (DGConfigure.instance P appName schemaId schemaPath s).2.gs =
        some s.objects.length := by
  have h1 : DGConfigure.instance P appName schemaId schemaPath s =
      (s.objects.length,
        { (DGConfigure.new P appName schemaId schemaPath s).2 with
          gs := some s.objects.length }) := by
    simp [DGConfigure.instance, hgs, DGConfigure.new]
  refine ⟨?_, by rw [h1]; rfl, by rw [h1]⟩
  have hg : (DGConfigure.instance P appName schemaId schemaPath s).2.gs =
      some s.objects.length := by rw [h1]
  simp only [instanceCalls, instanceCalls_of_gs P hg, List.replicate_succ]
  rw [h1]

/-- C2 (registry uniqueness): in every state reached from the empty registry by a sequence
of calls of the class interface, with any arguments and any backend answers, every entry of
`s_schemaVec` is the address of an object, and no two positions of `s_schemaVec` hold objects
whose stored `m_schemaId`, `m_schemaPath` and `m_appName` are all equal. -/
theorem registry_identities_unique (P : Platform β ν) (ops : List (Op β)) (s : Process)
    (hrun : run P ops Process.init = some s) :
    (∀ p ∈ s.s_schemaVec, ∃ o, s.objects[p]? = some o) ∧
      ∀ (i j pi pj : Nat) (oi oj : DGConfigure),
        s.s_schemaVec[i]? = some pi → s.s_schemaVec[j]? = some pj →
        s.objects[pi]? = some oi → s.objects[pj]? = some oj →
        oi.m_schemaInfo.m_schemaId = oj.m_schemaInfo.m_schemaId →
        oi.m_schemaInfo.m_schemaPath = oj.m_schemaInfo.m_schemaPath →
        oi.m_schemaInfo.m_appName = oj.m_schemaInfo.m_appName → i = j := by
  have hs : Inv s := inv_run P ops Inv.init hrun
  exact ⟨registry_live_of_inv hs, registry_unique_of_inv hs⟩

/-- C1 (idempotent selection): in a state reached by calls of the class interface, if
`selectSchema(schemaId, schemaPath, appName)` returns the instance `X`, then after any
further calls that end normally a `selectSchema` call with the same three arguments, made
while the backend reports `schemaId` installed, returns the same `X` and leaves the process
state, `s_schemaVec` included, unchanged. -/
theorem selectSchema_idempotent (P : Platform β ν) (s s1 s2 : Process)
    (hreach : Reaches P Process.init s) (w : World β)
    (schemaId schemaPath appName : QString) (X : Nat) (w1 : World β)
    (hfirst : selectSchema P w schemaId schemaPath appName s =
      Outcome.returned (some X) s1 w1)
    (hmid : Reaches P s1 s2) (w2 : World β)
    (hinst : P.isSchemaInstalled w2.store (P.toUtf8 schemaId) = true) :
    selectSchema P w2 schemaId schemaPath appName s2 =
      Outcome.returned (some X) s2 (isValidSchemaId P w2 schemaId).2 := by
  obtain ⟨ops, hops⟩ := hreach
  obtain ⟨mids, hmids⟩ := hmid
  have hs : Inv s := inv_run P ops Inv.init hops
  unfold selectSchema at hfirst ⊢
  have hs1 : Inv s1 := inv_createNewSchema P w appName schemaId schemaPath hs hfirst
  -- after the first call `X` is the first entry of the registry with the identity
  have hfind1 : isEmpty schemaPath = false ∧
      findSchema s1.objects (P.toUtf8 schemaId) (P.toUtf8 schemaPath) (P.toUtf8 appName)
        s1.s_schemaVec = some X := by
    rcases createNewSchema_cases P w appName schemaId schemaPath s with
      ⟨_, hc⟩ | ⟨_, _, hc⟩ | ⟨he, _, Y, hf, hc⟩ | ⟨he, _, hf, hc⟩
    · rw [hc] at hfirst
      exact absurd hfirst (by simp)
    · rw [hc] at hfirst
      injection hfirst with h1 _ _
      exact absurd h1 (by simp)
    · rw [hc] at hfirst
      injection hfirst with h1 h2 _
      have hY : Y = X := by simpa using h1
      rw [← h2, ← hY]
      exact ⟨he, hf⟩
    · rw [hc] at hfirst
      injection hfirst with h1 h2 _
      have hX : s.objects.length = X := by simpa using h1
      refine ⟨he, ?_⟩
      rw [← h2, ← hX]
      show findSchema (s.objects ++ _) _ _ _ (s.s_schemaVec ++ [s.objects.length]) = _
      have hnone : findSchema (s.objects ++
          [⟨{ m_schemaId := P.toUtf8 schemaId
              m_schemaPath := P.toUtf8 schemaPath
              m_appName := P.toUtf8 appName
              m_pSettings := s.settings.length
              m_onValueChanged := none }⟩])
          (P.toUtf8 schemaId) (P.toUtf8 schemaPath) (P.toUtf8 appName) s.s_schemaVec =
          none := by
        rw [findSchema_congr _ _ _
          (fun p hp => identityAt_append_left _ (hs.registry_lt p hp))]
        exact hf
      rw [findSchema_append_of_none hnone]
      simp [findSchema]
  -- the later state extends it
  have hext : Ext s1 s2 := ext_run P mids hmids
  obtain ⟨l, hl⟩ := hext.registry
  have hfind2 : findSchema s2.objects (P.toUtf8 schemaId) (P.toUtf8 schemaPath)
      (P.toUtf8 appName) s2.s_schemaVec = some X := by
    rw [hl]
    apply findSchema_append_of_some
    rw [findSchema_congr _ _ _
      (fun p hp => hext.identity_eq p (hs1.registry_lt p hp))]
    exact hfind1.2
  rcases createNewSchema_cases P w2 appName schemaId schemaPath s2 with
    ⟨he, _⟩ | ⟨_, hi, _⟩ | ⟨_, _, Y, hf, hc⟩ | ⟨_, _, hf, _⟩
  · rw [hfind1.1] at he
    exact absurd he (by simp)
  · rw [hinst] at hi
    exact absurd hi (by simp)
  · rw [hfind2] at hf
    have hY : X = Y := by simpa using hf
    rw [hc, hY]
  · rw [hfind2] at hf
    exact absurd hf (by simp)

/-- C10 (single-slot change notification): for an instance of a reachable state and any
sequence of `setOnValueChangedCallback` registrations on it, a `changed(k)` event of its
`QGSettings` object runs exactly the callback registered last, once, with `k`, and runs
nothing when the last registration was an empty function object; with no registration the
slot is as it was, and it is empty in a newly constructed object. The registrations change
the callback slot of that instance only: its identity and backend handle, every other
object, the `QGSettings` objects, the registry and the static of `instance` are as before. -/
theorem single_slot_notification (P : Platform β ν) (ops : List (Op β)) (s : Process)
    (hrun : run P ops Process.init = some s) (this : Nat) (o : DGConfigure)
    (ho : s.objects[this]? = some o) (callbacks : List (Option Callback)) (k : QString) :
    emitChanged (registerAll this callbacks s) o.m_schemaInfo.m_pSettings k =
        (match callbacks.getLast? with
          | some (some callback) => [(callback, k)]
          | some none => []
          | none =>
            match o.m_schemaInfo.m_onValueChanged with
            | some callback => [(callback, k)]
            | none => []) ∧
      (registerAll this callbacks s).objects[this]? =
        some ⟨{ o.m_schemaInfo with
                m_onValueChanged := callbacks.getLast?.getD o.m_schemaInfo.m_onValueChanged }⟩ ∧
      (∀ p, p ≠ this → (registerAll this callbacks s).objects[p]? = s.objects[p]?) ∧
      (registerAll this callbacks s).settings = s.settings ∧
      (registerAll this callbacks s).s_schemaVec = s.s_schemaVec ∧
      (registerAll this callbacks s).gs = s.gs ∧
      (∀ (appName schemaId schemaPath : QString) (t : Process),
        (DGConfigure.new P appName schemaId schemaPath t).2.objects[
            (DGConfigure.new P appName schemaId schemaPath t).1]?.map
          (fun n => n.m_schemaInfo.m_onValueChanged) = some none) := by
  have hs : Inv s := inv_run P ops Inv.init hrun
  obtain ⟨h1, h2, h3, h4, h5, _⟩ := registerAll_spec this callbacks s o ho
  refine ⟨?_, h1, h2, h3, h4, h5, ?_⟩
  · rw [emitChanged_of_inv hs this o _ ho h3 h1 k]
    cases hl : callbacks.getLast? with
    | none =>
      cases hc : o.m_schemaInfo.m_onValueChanged <;> simp [onChangedLambda, hc]
    | some cb =>
      cases cb with
      | none => simp [onChangedLambda]
      | some c => simp [onChangedLambda]
  · intro appName schemaId schemaPath t
    simp [DGConfigure.new]

/-! ## The claims at concrete inputs -/

/-- C1 at a concrete input: the instance selected first is returned again after another
schema was selected in between, and the state is unchanged. -/
theorem selectSchema_idempotent_witness :
    run memPlatform memCalls Process.init = some memLater ∧
      selectSchema memPlatform memWorld "com.test.mytest" "/com/test/mytest/" "myapp"
          memLater =
        Outcome.returned (some 0) memLater
          (isValidSchemaId memPlatform memWorld "com.test.mytest").2 :=
  ⟨by decide,
    selectSchema_idempotent memPlatform Process.init memFirst memLater ⟨[], rfl⟩ memWorld
      "com.test.mytest" "/com/test/mytest/" "myapp" 0
      (isValidSchemaId memPlatform memWorld "com.test.mytest").2 (by decide)
      ⟨[Op.selectSchema memWorld "com.deepin.dtk" "/x/" "other"], by decide⟩ memWorld
      (by decide)⟩

/-- C2 at a concrete input: the state after two selections. -/
theorem registry_identities_unique_witness :
    run memPlatform memCalls Process.init = some memLater ∧
      ∀ p ∈ memLater.s_schemaVec, ∃ o, memLater.objects[p]? = some o :=
  ⟨by decide, (registry_identities_unique memPlatform memCalls memLater (by decide)).1⟩

/-- C4 at a concrete input: the identity is already an entry of the registry and the backend
no longer reports its schema id as installed. -/
theorem selectSchema_not_installed_witness :
    isEmpty "/com/test/mytest/" = false ∧
      memPlatform.isSchemaInstalled memWorldBare.store
        (memPlatform.toUtf8 "com.test.mytest") = false ∧
      selectSchema memPlatform memWorldBare "com.test.mytest" "/com/test/mytest/" "myapp"
          memLater =
        Outcome.returned none memLater
          { store := memWorldBare.store
            calls := memWorldBare.calls ++
              [BackendCall.isSchemaInstalled (memPlatform.toUtf8 "com.test.mytest")] } :=
  ⟨by decide, by decide,
    selectSchema_not_installed memPlatform memWorldBare "com.test.mytest" "/com/test/mytest/"
      "myapp" memLater (by decide) (by decide)⟩

/-- C6 at a concrete input: a key that the schema does not have. -/
theorem getValue_validation_gating_witness :
    "nokey" ∉ (allKeys memPlatform memWorld memInstance).1 ∧
      (getValue memPlatform memWorld memInstance "nokey").1 = "" :=
  ⟨by decide,
    (getValue_validation_gating memPlatform memWorld memInstance "nokey").2.1 (by decide)⟩

/-- C7 at a concrete input: a key that the schema does not have. -/
theorem setValue_validation_gating_witness :
    "nokey" ∉ (allKeys memPlatform memWorld memInstance).1 ∧
      (setValue memPlatform memWorld memInstance "nokey" "v").1 = false ∧
      (setValue memPlatform memWorld memInstance "nokey" "v").2.store = memWorld.store :=
  ⟨by decide,
    ((setValue_validation_gating memPlatform memWorld memInstance "nokey" "v").2
      (by decide)).1,
    ((setValue_validation_gating memPlatform memWorld memInstance "nokey" "v").2
      (by decide)).2.2.1⟩

/-- C8 at concrete inputs: a key of the schema, and a key that the schema does not have. -/
theorem resetValue_guard_witness :
    (isValidKey memPlatform memWorld memInstance "logFormat").1 = true ∧
      (resetValue memPlatform memWorld memInstance "logFormat").store = memWorld.store ∧
      (isValidKey memPlatform memWorld memInstance "nokey").1 = false ∧
      resetValue memPlatform memWorld memInstance "nokey" =
        { store := memPlatform.reset memWorld.store 0 "nokey"
          calls := (isValidKey memPlatform memWorld memInstance "nokey").2.calls ++
            [BackendCall.reset 0 "nokey"] } :=
  ⟨by decide,
    ((resetValue_guard memPlatform memWorld memInstance "logFormat").2.1 (by decide)).2.1,
    by decide,
    (resetValue_guard memPlatform memWorld memInstance "nokey").1 (by decide)⟩

/-- C9 at a concrete input: three calls with different arguments return the first object. -/
theorem instance_singleton_witness :
    Process.init.gs = none ∧
      (instanceCalls memPlatform
        [("myapp", "com.deepin.dtk", "/com/deepin/dtk/"), ("other", "com.test.mytest", "/x/"),
          ("third", "x", "")] Process.init).1 = [0, 0, 0] :=
  ⟨rfl,
    congrArg Prod.fst
      (instance_singleton memPlatform Process.init rfl "myapp" "com.deepin.dtk"
        "/com/deepin/dtk/" [("other", "com.test.mytest", "/x/"), ("third", "x", "")]).1⟩

/-- C10 at a concrete input: three registrations on the first registry entry; the event
runs the last one. -/
theorem single_slot_notification_witness :
    run memPlatform memCalls Process.init = some memLater ∧
      emitChanged (registerAll 0 [some 7, none, some 9] memLater) 0 "logFormat" =
        [(9, "logFormat")] :=
  ⟨by decide,
    (single_slot_notification memPlatform memCalls memLater (by decide) 0
      ⟨{ m_schemaId := memPlatform.toUtf8 "com.test.mytest"
         m_schemaPath := memPlatform.toUtf8 "/com/test/mytest/"
         m_appName := memPlatform.toUtf8 "myapp"
         m_pSettings := 0
         m_onValueChanged := none }⟩ (by decide) [some 7, none, some 9] "logFormat").1⟩

end Claims

end Dtk.Core
